import Mathlib

/-!
# Verification of the VC-Prep-Agent document-to-deck pipeline

This development gives a shallow embedding of the string-processing core of
the VC-Prep-Agent repository and proves the behavioural claims made by its
specification.  Python strings are modelled as `List Char` (a Python `str`
is a sequence of code points), and the Python string methods used by the
code (`strip`, `split`, `startswith`, slicing) are reproduced over that
model.  The language-model completion boundary and the web-search provider
are opaque in the source; they appear here as explicit function or
`Except` parameters, so every agent operation is a total, executable Lean
function of its inputs and of the text the external boundary returns.
-/

/-- The characters Python `str.strip()` removes by default (ASCII range). -/
def isPySpace (c : Char) : Bool :=
  c = ' ' || c = '\t' || c = '\n' || c = '\r' || c = '\x0b' || c = '\x0c'

/-- Python `s.strip()`: drop leading and trailing whitespace. -/
def pyStrip (s : List Char) : List Char :=
  ((s.dropWhile isPySpace).reverse.dropWhile isPySpace).reverse

/-- Python `s.split('\n')`: split on every newline; `""` splits to `[""]`. -/
def splitLines : List Char → List (List Char)
  | [] => [[]]
  | c :: rest =>
    let r := splitLines rest
    if c = '\n' then [] :: r
    else
      match r with
      | [] => [[c]]
      | l :: ls => (c :: l) :: ls

/-- Decimal digits of a natural number, as characters (fuel-indexed so the
definition is structural and evaluates inside the kernel). -/
def natDigitsAux : Nat → Nat → List Char
  | 0, _ => []
  | fuel + 1, n =>
    if n < 10 then [Char.ofNat (48 + n)]
    else natDigitsAux fuel (n / 10) ++ [Char.ofNat (48 + n % 10)]

/-- Decimal rendering of a natural number (Python f-string interpolation). -/
def natDigits (n : Nat) : List Char := natDigitsAux (n + 1) n

namespace PowerPointAgent

/-!
## `POWERPOINT_VC_AGENT/agent.py`

The thesis deck builder.  `condense_to_three_bullets` and
`condense_executive_summary` are modelled as the parsing applied to the
reply returned by the language model; the reply itself is a parameter.
-/

/-- A parsed thesis section: `{'number', 'title', 'content'}` as built by
`parse_thesis`. -/
structure ThesisSection where
  number : List Char
  title : List Char
  content : List Char
deriving DecidableEq

/-- The record returned by `parse_thesis`. -/
structure ThesisData where
  sector : List Char
  region : List Char
  executive_summary : List Char
  sections : List ThesisSection
deriving DecidableEq

/-- One slide of the generated presentation, keeping the data that the
builder writes into it. -/
inductive Slide where
  | titleSlide : (sector region : List Char) → Slide
  | content : (title : List Char) → (bullets : List (List Char)) → Slide
  | closing : (sector : List Char) → Slide
deriving DecidableEq

/-- In-loop truncation from `condense_to_three_bullets`:
`if len(bullet) > 120: bullet = bullet[:117] + "..."`. -/
def truncBullet (b : List Char) : List Char :=
  if b.length > 120 then b.take 117 ++ "...".toList else b

/-- The literal filler appended while fewer than three bullets were parsed. -/
def fillerBullet : List Char := "Additional research pending".toList

/-- The bullet-collection loop shared by the agents: walk the lines in
order, appending the value produced for each accepted line. -/
def bulletLoop (f : List Char → Option (List Char)) (lines : List (List Char)) :
    List (List Char) :=
  lines.foldl
    (fun bullets line =>
      match f line with
      | some b => bullets ++ [b]
      | none => bullets)
    []

/-- Per-line body of the collection loop in `condense_to_three_bullets`:
strip the line, accept it when it starts with the bullet marker, strip the
marker off and truncate. -/
def condenseLine (line : List Char) : Option (List Char) :=
  let l := pyStrip line
  if "- ".toList.isPrefixOf l then some (truncBullet (pyStrip (l.drop 2)))
  else none

/-- The `while len(bullets) < 3: bullets.append(...)` padding loop; three
iterations always suffice to reach length 3. -/
def padLoop (filler : List Char) : Nat → List (List Char) → List (List Char)
  | 0, bullets => bullets
  | n + 1, bullets =>
    if bullets.length < 3 then padLoop filler n (bullets ++ [filler])
    else bullets

/-- `PowerPointAgent.condense_to_three_bullets`, as a function of the text
the language model replied: parse the bullet lines, pad with the filler up
to three, return the first three. -/
def condense_to_three_bullets (reply : List Char) : List (List Char) :=
  (padLoop fillerBullet 3 (bulletLoop condenseLine (splitLines (pyStrip reply)))).take 3

/-- In-loop truncation from `condense_executive_summary`
(`if len(bullet) > 100: bullet = bullet[:97] + "..."`). -/
def truncSummaryBullet (b : List Char) : List Char :=
  if b.length > 100 then b.take 97 ++ "...".toList else b

/-- Per-line body of the collection loop in `condense_executive_summary`. -/
def summaryLine (line : List Char) : Option (List Char) :=
  let l := pyStrip line
  if "- ".toList.isPrefixOf l then some (truncSummaryBullet (pyStrip (l.drop 2)))
  else none

/-- Filler used by the executive-summary condensation. -/
def summaryFiller : List Char := "Key insight from research".toList

/-- `PowerPointAgent.condense_executive_summary`, as a function of the
language-model reply. -/
def condense_executive_summary (reply : List Char) : List (List Char) :=
  (padLoop summaryFiller 3 (bulletLoop summaryLine (splitLines (pyStrip reply)))).take 3

/-- `PowerPointAgent.create_presentation`.  The two language-model
condensation boundaries appear as oracle parameters giving the reply text;
the second component counts how many condensation calls were issued
(`condense_executive_summary` and `condense_to_three_bullets` each invoke
the model exactly once per call). -/
def create_presentation (d : ThesisData)
    (oracleSummary : List Char → List Char)
    (oracleSection : List Char → List Char → List Char) : List Slide × Nat :=
  let execPart : List Slide × Nat :=
    if d.executive_summary ≠ [] then
      ([Slide.content "Executive Summary".toList
          (condense_executive_summary (oracleSummary d.executive_summary))], 1)
    else ([], 0)
  let sectionPart : List Slide × Nat :=
    (d.sections.map fun s =>
      Slide.content (s.number ++ ". ".toList ++ s.title)
        (condense_to_three_bullets (oracleSection s.content s.title)),
     d.sections.length)
  (Slide.titleSlide d.sector d.region ::
     (execPart.1 ++ sectionPart.1 ++ [Slide.closing d.sector]),
   execPart.2 + sectionPart.2)

end PowerPointAgent

/-!
## Supporting lemmas for the condensation operations
-/

namespace PowerPointAgent

/-- The imperative collection loop is the `filterMap` of its per-line body. -/
theorem bulletLoop_eq_filterMap (f : List Char → Option (List Char))
    (lines : List (List Char)) : bulletLoop f lines = lines.filterMap f := by
  have aux : ∀ (ls : List (List Char)) (acc : List (List Char)),
      ls.foldl
        (fun bullets line =>
          match f line with
          | some b => bullets ++ [b]
          | none => bullets) acc = acc ++ ls.filterMap f := by
    intro ls
    induction ls with
    | nil => simp
    | cons l ls ih =>
      intro acc
      cases h : f l with
      | none => simp [List.filterMap_cons, h, ih]
      | some b => simp [List.filterMap_cons, h, ih]
  simpa using aux lines []

/-- The `while` padding loop, run with fuel 3, appends exactly enough
copies of the filler to reach length 3 (and appends none at length 3+). -/
theorem padLoop_eq (filler : List Char) (bs : List (List Char)) :
    padLoop filler 3 bs = bs ++ List.replicate (3 - bs.length) filler := by
  rcases bs with _ | ⟨a, _ | ⟨b, _ | ⟨c, rest⟩⟩⟩ <;>
    simp [padLoop, List.replicate]

theorem condense_to_three_bullets_length (reply : List Char) :
    (condense_to_three_bullets reply).length = 3 := by
  rw [condense_to_three_bullets, padLoop_eq]
  simp
  omega

theorem truncBullet_length_le (b : List Char) : (truncBullet b).length ≤ 120 := by
  rw [truncBullet]
  split
  · simp
  · omega

theorem condense_to_three_bullets_mem_le {reply b : List Char}
    (hb : b ∈ condense_to_three_bullets reply) : b.length ≤ 120 := by
  rw [condense_to_three_bullets, padLoop_eq, bulletLoop_eq_filterMap] at hb
  have hb2 := List.mem_of_mem_take hb
  rcases List.mem_append.mp hb2 with h | h
  · rcases List.mem_filterMap.mp h with ⟨line, _, hline⟩
    rw [condenseLine] at hline
    split at hline
    · cases hline
      exact truncBullet_length_le _
    · cases hline
  · rw [List.eq_of_mem_replicate h]
    decide

theorem truncSummaryBullet_length_le (b : List Char) :
    (truncSummaryBullet b).length ≤ 100 := by
  rw [truncSummaryBullet]
  split
  · simp
  · omega

theorem condense_executive_summary_length (reply : List Char) :
    (condense_executive_summary reply).length = 3 := by
  rw [condense_executive_summary, padLoop_eq]
  simp
  omega

theorem condense_executive_summary_mem_le {reply b : List Char}
    (hb : b ∈ condense_executive_summary reply) : b.length ≤ 100 := by
  rw [condense_executive_summary, padLoop_eq, bulletLoop_eq_filterMap] at hb
  have hb2 := List.mem_of_mem_take hb
  rcases List.mem_append.mp hb2 with h | h
  · rcases List.mem_filterMap.mp h with ⟨line, _, hline⟩
    rw [summaryLine] at hline
    split at hline
    · cases hline
      exact truncSummaryBullet_length_le _
    · cases hline
  · rw [List.eq_of_mem_replicate h]
    decide

/-- Projection used to state which content slides a deck holds, in order. -/
def contentTitle : Slide → Option (List Char)
  | .content t _ => some t
  | _ => none

/-- The bullet lines of the language-model reply as collected before any
truncation: stripped lines starting with the bullet marker, marker
removed and the remainder stripped. -/
def rawBullets (reply : List Char) : List (List Char) :=
  (splitLines (pyStrip reply)).filterMap fun line =>
    let l := pyStrip line
    if "- ".toList.isPrefixOf l then some (pyStrip (l.drop 2)) else none

theorem condenseLine_eq_raw (line : List Char) :
    condenseLine line =
      (if "- ".toList.isPrefixOf (pyStrip line) then
          some (pyStrip ((pyStrip line).drop 2))
        else none).map truncBullet := by
  rw [condenseLine]
  split <;> simp_all

end PowerPointAgent

/-- A `filterMap` whose body always succeeds is a `map`. -/
theorem filterMap_some_comp {a b : Type} (f : a → b) (l : List a) :
    l.filterMap (fun x => some (f x)) = l.map f := by
  induction l <;> simp_all

/-- C3: for every language-model reply string, `condense_to_three_bullets`
returns exactly 3 bullets: the reply lines starting with the bullet marker
are collected in order; every collected bullet longer than 120 characters
is replaced by its first 117 characters followed by an ellipsis; a
collection of fewer than 3 bullets is padded to length 3 with the literal
filler "Additional research pending". -/
theorem c3_condense_exactly_three (reply : List Char) :
    PowerPointAgent.condense_to_three_bullets reply =
      ((PowerPointAgent.rawBullets reply).map PowerPointAgent.truncBullet ++
        List.replicate
          (3 - ((PowerPointAgent.rawBullets reply).map PowerPointAgent.truncBullet).length)
          PowerPointAgent.fillerBullet).take 3 ∧
    (PowerPointAgent.condense_to_three_bullets reply).length = 3 := by
  constructor
  · rw [PowerPointAgent.condense_to_three_bullets, PowerPointAgent.padLoop_eq,
      PowerPointAgent.bulletLoop_eq_filterMap]
    have h : (splitLines (pyStrip reply)).filterMap PowerPointAgent.condenseLine =
        (PowerPointAgent.rawBullets reply).map PowerPointAgent.truncBullet := by
      rw [PowerPointAgent.rawBullets, List.map_filterMap]
      exact List.filterMap_congr fun x _ => PowerPointAgent.condenseLine_eq_raw x
    rw [h]
  · exact PowerPointAgent.condense_to_three_bullets_length reply

/-- C1: for every parsed thesis record with N sections,
`create_presentation` produces N+2 slides when the executive summary is
empty and N+3 slides when it is non-empty (title slide, optional
executive-summary slide, one content slide per section in section order,
closing slide), and every content slide carries exactly 3 bullets, each at
most 120 characters long. -/
theorem c1_create_presentation_shape (d : PowerPointAgent.ThesisData)
    (oSum : List Char → List Char) (oSec : List Char → List Char → List Char) :
    (d.executive_summary = [] →
      ((PowerPointAgent.create_presentation d oSum oSec).1).length =
        d.sections.length + 2) ∧
    (d.executive_summary ≠ [] →
      ((PowerPointAgent.create_presentation d oSum oSec).1).length =
        d.sections.length + 3) ∧
    (∀ t bs,
      PowerPointAgent.Slide.content t bs ∈
          (PowerPointAgent.create_presentation d oSum oSec).1 →
      bs.length = 3 ∧ ∀ b ∈ bs, b.length ≤ 120) ∧
    ((PowerPointAgent.create_presentation d oSum oSec).1).filterMap
        PowerPointAgent.contentTitle =
      (if d.executive_summary = [] then [] else ["Executive Summary".toList]) ++
        d.sections.map (fun s => s.number ++ ". ".toList ++ s.title) := by
  refine ⟨?_, ?_, ?_, ?_⟩
  · intro h
    simp [PowerPointAgent.create_presentation, h]
  · intro h
    simp [PowerPointAgent.create_presentation, h]
  · intro t bs hmem
    simp [PowerPointAgent.create_presentation] at hmem
    by_cases h : d.executive_summary = [] <;> simp [h] at hmem
    · rcases hmem with ⟨s, _, _, hbs⟩
      subst hbs
      exact ⟨PowerPointAgent.condense_to_three_bullets_length _,
        fun b hb => PowerPointAgent.condense_to_three_bullets_mem_le hb⟩
    · rcases hmem with ⟨_, hbs⟩ | ⟨s, _, _, hbs⟩
      · subst hbs
        exact ⟨PowerPointAgent.condense_executive_summary_length _,
          fun b hb =>
            le_trans (PowerPointAgent.condense_executive_summary_mem_le hb) (by omega)⟩
      · subst hbs
        exact ⟨PowerPointAgent.condense_to_three_bullets_length _,
          fun b hb => PowerPointAgent.condense_to_three_bullets_mem_le hb⟩
  · by_cases h : d.executive_summary = [] <;>
      simp [PowerPointAgent.create_presentation, h, PowerPointAgent.contentTitle,
        List.filterMap_append, List.filterMap_map, Function.comp_def,
        filterMap_some_comp]

/-- Witness for C1: a one-section thesis with a non-empty executive
summary yields a 4-slide deck whose section slide has exactly 3 bullets. -/
theorem c1_create_presentation_shape_witness :
    ("great".toList ≠ ([] : List Char)) ∧
    ((PowerPointAgent.create_presentation
        ⟨"S".toList, "US".toList, "great".toList,
          [⟨"1".toList, "T".toList, "body".toList⟩]⟩
        (fun _ => "- k".toList) (fun _ _ => "- a".toList)).1).length = 1 + 3 ∧
    (PowerPointAgent.condense_to_three_bullets "- a".toList).length = 3 := by
  have h := c1_create_presentation_shape
    ⟨"S".toList, "US".toList, "great".toList,
      [⟨"1".toList, "T".toList, "body".toList⟩]⟩
    (fun _ => "- k".toList) (fun _ _ => "- a".toList)
  refine ⟨by decide, h.2.1 (by decide), ?_⟩
  have hm := h.2.2.1 ("1".toList ++ ". ".toList ++ "T".toList)
    (PowerPointAgent.condense_to_three_bullets "- a".toList) (by decide)
  exact hm.1

namespace PowerPointNetworkingAgent

/-!
## `POWERPOINT_NETWORKING_AGENT/agent.py`

The networking deck builder.  Its `condense_to_three_bullets` body
(lines 136-148) is token-for-token the same parsing as the VC agent
function already embedded above, so it is reused here.  Unlike the VC
builder, this agent first tries `extract_bullets`, which reuses bullet
lines found in the section content and only falls back to condensation.
-/

/-- A parsed strategy record as returned by `parse_strategy` (same shape
as the thesis record but with no executive summary). -/
structure StrategyData where
  sector : List Char
  region : List Char
  sections : List PowerPointAgent.ThesisSection
deriving DecidableEq

/-- `PowerPointNetworkingAgent.condense_to_three_bullets`: identical
reply parsing to the VC agent (marker lines, 120/117 truncation, filler
padding, first three). -/
def condense_to_three_bullets (reply : List Char) : List (List Char) :=
  PowerPointAgent.condense_to_three_bullets reply

/-- Per-line body of the collection loop in `extract_bullets`: strip the
line, require the bullet marker, strip the marker off, keep the bullet
only if non-empty.  No truncation happens here. -/
def extractLine (line : List Char) : Option (List Char) :=
  let l := pyStrip line
  if "- ".toList.isPrefixOf l then
    let b := pyStrip (l.drop 2)
    if b ≠ [] then some b else none
  else none

/-- The bullets found directly in the section content by the loop at the
top of `extract_bullets`. -/
def contentBullets (content : List Char) : List (List Char) :=
  PowerPointAgent.bulletLoop extractLine (splitLines content)

/-- `PowerPointNetworkingAgent.extract_bullets`, as a function of the
condensation reply the model would return for this section.  The second
component counts condensation calls (0 when the three found bullets are
returned as they are, 1 when the fallback fires). -/
def extract_bullets (oracleReply : List Char) (content : List Char) :
    List (List Char) × Nat :=
  let bullets := contentBullets content
  if bullets.length = 3 then (bullets, 0)
  else (condense_to_three_bullets oracleReply, 1)

/-- `PowerPointNetworkingAgent.create_presentation`: title slide, one
content slide per section via `extract_bullets`, closing slide.  The
second component counts condensation calls across the deck. -/
def create_presentation (d : StrategyData)
    (oracleSection : List Char → List Char → List Char) :
    List PowerPointAgent.Slide × Nat :=
  (PowerPointAgent.Slide.titleSlide d.sector d.region ::
     ((d.sections.map fun s =>
        PowerPointAgent.Slide.content (s.number ++ ". ".toList ++ s.title)
          (extract_bullets (oracleSection s.content s.title) s.content).1) ++
      [PowerPointAgent.Slide.closing d.sector]),
   (d.sections.map fun s =>
      (extract_bullets (oracleSection s.content s.title) s.content).2).sum)

end PowerPointNetworkingAgent

set_option maxRecDepth 4000 in
/-- Counterexample for C2.  The claim quantifies over the deck builders of
the repository, and both cited builders refute parts of it at concrete
inputs: the VC thesis builder issues one condensation call even for a
section whose content is exactly three bullet lines, and the networking
builder returns a 130-character found bullet with no 120-character cap
applied. -/
theorem c2_counterexample :
    (PowerPointNetworkingAgent.contentBullets
        "- aaaaaaaaaaaa\n- bbbbbbbbbbbb\n- cccccccccccc".toList).length = 3 ∧
    (PowerPointAgent.create_presentation
        ⟨"S".toList, "US".toList, [],
          [⟨"1".toList, "T".toList,
            "- aaaaaaaaaaaa\n- bbbbbbbbbbbb\n- cccccccccccc".toList⟩]⟩
        (fun _ => []) (fun _ _ => [])).2 = 1 ∧
    (PowerPointNetworkingAgent.contentBullets
        ("- ".toList ++ List.replicate 130 'a' ++ "\n- bbbbbbbbbbbb\n- cccccccccccc".toList)).length = 3 ∧
    (PowerPointNetworkingAgent.extract_bullets []
        ("- ".toList ++ List.replicate 130 'a' ++ "\n- bbbbbbbbbbbb\n- cccccccccccc".toList)).1.head? =
      some (List.replicate 130 'a') ∧
    (List.replicate 130 'a').length > 120 := by
  refine ⟨by decide, by decide, by decide, by decide, by decide⟩

/-- C2 as amended: in the networking deck builder, a section whose content
holds exactly three non-empty markdown bullet lines has those stripped
bullet lines reused as found, with no length cap applied and zero
condensation calls (and a deck all of whose sections are such makes zero
calls); the VC thesis deck builder instead invokes the condensation call
once per section regardless of content, plus once for a non-empty
executive summary. -/
theorem c2_amended_reuse_and_calls :
    (∀ content oracle,
      (PowerPointNetworkingAgent.contentBullets content).length = 3 →
      PowerPointNetworkingAgent.extract_bullets oracle content =
        (PowerPointNetworkingAgent.contentBullets content, 0)) ∧
    (∀ (d : PowerPointNetworkingAgent.StrategyData) oracle,
      (∀ s ∈ d.sections,
        (PowerPointNetworkingAgent.contentBullets s.content).length = 3) →
      (PowerPointNetworkingAgent.create_presentation d oracle).2 = 0) ∧
    (∀ (d : PowerPointAgent.ThesisData) oSum oSec,
      (PowerPointAgent.create_presentation d oSum oSec).2 =
        (if d.executive_summary = [] then 0 else 1) + d.sections.length) := by
  refine ⟨?_, ?_, ?_⟩
  · intro content oracle h
    simp [PowerPointNetworkingAgent.extract_bullets, h]
  · intro d oracle h
    simp only [PowerPointNetworkingAgent.create_presentation]
    apply List.sum_eq_zero
    intro x hx
    rcases List.mem_map.mp hx with ⟨s, hs, hxs⟩
    have h3 := h s hs
    rw [← hxs]
    simp [PowerPointNetworkingAgent.extract_bullets, h3]
  · intro d oSum oSec
    by_cases h : d.executive_summary = [] <;>
      simp [PowerPointAgent.create_presentation, h]

/-- Witness for the amended C2: a concrete three-bullet section is reused
untouched with zero condensation calls. -/
theorem c2_amended_reuse_and_calls_witness :
    (PowerPointNetworkingAgent.contentBullets
        "- alpha\n- beta\n- gamma".toList).length = 3 ∧
    PowerPointNetworkingAgent.extract_bullets "- z".toList
        "- alpha\n- beta\n- gamma".toList =
      (["alpha".toList, "beta".toList, "gamma".toList], 0) := by
  refine ⟨by decide, ?_⟩
  have h := c2_amended_reuse_and_calls.1 "- alpha\n- beta\n- gamma".toList
    "- z".toList (by decide)
  rw [h]
  decide

namespace FinalPassAgent

/-!
## `FinalPass_agent/agent.py`

The QA pass.  A loaded presentation is modelled by the data the agent
reads from it: shapes with a text frame and their paragraph texts, plus
whether the shape is the slide title placeholder.
-/

/-- A QA issue record (`QAIssue.__init__`). -/
structure QAIssue where
  slide_num : Nat
  issue_type : List Char
  description : List Char
  severity : List Char
deriving DecidableEq

/-- One shape of a loaded slide, as consumed by `extract_slide_content`. -/
structure Shape where
  isTitle : Bool
  hasTextFrame : Bool
  paragraphs : List (List Char)
deriving DecidableEq

/-- One loaded slide. -/
structure PSlide where
  shapes : List Shape
deriving DecidableEq

/-- The per-slide record built by `extract_slide_content` (the fields the
later checks consume). -/
structure SlideData where
  number : Nat
  title : List Char
  total_text : List Char
  bullet_count : Nat
deriving DecidableEq

/-- The inner per-shape loop of `extract_slide_content`: accumulate the
non-empty stripped paragraphs as `text` and count those longer than 10
characters. -/
def shapeScan (sh : Shape) : List Char × Nat :=
  sh.paragraphs.foldl
    (fun acc para =>
      let pt := pyStrip para
      if pt ≠ [] then
        (acc.1 ++ pt ++ ['\n'], if pt.length > 10 then acc.2 + 1 else acc.2)
      else acc)
    ([], 0)

/-- The per-slide part of `extract_slide_content`: fold over the shapes,
adding each text-frame shape whose text is non-empty to the totals, and
remembering the first line of the title placeholder text. -/
def extractSlide (i : Nat) (sl : PSlide) : SlideData :=
  sl.shapes.foldl
    (fun data sh =>
      if sh.hasTextFrame then
        let scanned := shapeScan sh
        if pyStrip scanned.1 ≠ [] then
          { data with
            total_text := data.total_text ++ scanned.1,
            bullet_count := data.bullet_count + scanned.2,
            title :=
              if sh.isTitle then (splitLines (pyStrip scanned.1)).headD []
              else data.title }
        else data
      else data)
    { number := i + 1, title := [], total_text := [], bullet_count := 0 }

/-- `FinalPassAgent.extract_slide_content` over all slides (1-based slide
numbers from `enumerate`). -/
def extract_slide_content (slides : List PSlide) : List SlideData :=
  slides.enum.map fun p => extractSlide p.1 p.2

/-- Description text of a `too_few_bullets` issue. -/
def tooFewDescription (bc : Nat) : List Char :=
  "Slide has only ".toList ++ natDigits bc ++
    " bullet(s), recommend at least 3".toList

/-- Description text of a `too_many_bullets` issue. -/
def tooManyDescription (bc : Nat) : List Char :=
  "Slide has ".toList ++ natDigits bc ++ " bullets, may be overcrowded".toList

/-- `FinalPassAgent.validate_bullet_count`: skip slides numbered 1, 2 and
`len(slides_data)`; append a warning when the bullet count is below 2 or
above 6. -/
def validate_bullet_count (slides_data : List SlideData) : List QAIssue :=
  slides_data.foldl
    (fun issues slide =>
      if slide.number = 1 ∨ slide.number = 2 ∨
          slide.number = slides_data.length then issues
      else if slide.bullet_count < 2 then
        issues ++ [⟨slide.number, "too_few_bullets".toList,
          tooFewDescription slide.bullet_count, "warning".toList⟩]
      else if slide.bullet_count > 6 then
        issues ++ [⟨slide.number, "too_many_bullets".toList,
          tooManyDescription slide.bullet_count, "warning".toList⟩]
      else issues)
    []

/-- The issues `validate_bullet_count` contributes for one slide, given
the total number of slides. -/
def perSlideIssues (total : Nat) (slide : SlideData) : List QAIssue :=
  if slide.number = 1 ∨ slide.number = 2 ∨ slide.number = total then []
  else if slide.bullet_count < 2 then
    [⟨slide.number, "too_few_bullets".toList,
      tooFewDescription slide.bullet_count, "warning".toList⟩]
  else if slide.bullet_count > 6 then
    [⟨slide.number, "too_many_bullets".toList,
      tooManyDescription slide.bullet_count, "warning".toList⟩]
  else []

end FinalPassAgent

namespace FinalPassAgent

/-- The bullet-count loop appends, per slide, exactly `perSlideIssues`. -/
theorem validate_bullet_count_eq_flatten (sd : List SlideData) :
    validate_bullet_count sd = (sd.map (perSlideIssues sd.length)).flatten := by
  rw [validate_bullet_count]
  generalize sd.length = total
  have aux : ∀ (l : List SlideData) (acc : List QAIssue),
      l.foldl
        (fun issues slide =>
          if slide.number = 1 ∨ slide.number = 2 ∨ slide.number = total then issues
          else if slide.bullet_count < 2 then
            issues ++ [⟨slide.number, "too_few_bullets".toList,
              tooFewDescription slide.bullet_count, "warning".toList⟩]
          else if slide.bullet_count > 6 then
            issues ++ [⟨slide.number, "too_many_bullets".toList,
              tooManyDescription slide.bullet_count, "warning".toList⟩]
          else issues) acc =
        acc ++ (l.map (perSlideIssues total)).flatten := by
    intro l
    induction l with
    | nil => simp
    | cons x l ih =>
      intro acc
      rw [List.foldl_cons, ih, List.map_cons, List.flatten_cons]
      rw [perSlideIssues]
      split_ifs <;> simp
  exact aux sd []

/-- Every issue `perSlideIssues` emits carries the number of its slide. -/
theorem perSlideIssues_slide_num {total : Nat} {s : SlideData} {iss : QAIssue}
    (h : iss ∈ perSlideIssues total s) : iss.slide_num = s.number := by
  rw [perSlideIssues] at h
  split_ifs at h <;> simp_all

/-- Slides whose number differs from the target contribute nothing to the
target-filtered issue list. -/
theorem join_filter_none {target : Nat} :
    ∀ (l : List SlideData) (total : Nat), (∀ x ∈ l, x.number ≠ target) →
      ((l.map (perSlideIssues total)).flatten.filter
        (fun iss => iss.slide_num == target)) = [] := by
  intro l
  induction l with
  | nil => simp
  | cons x l ih =>
    intro total hx
    rw [List.map_cons, List.flatten_cons, List.filter_append]
    rw [ih total (fun y hy => hx y (List.mem_cons_of_mem x hy))]
    have h0 : (perSlideIssues total x).filter
        (fun iss => iss.slide_num == target) = [] := by
      apply List.filter_eq_nil_iff.mpr
      intro iss hiss
      have := perSlideIssues_slide_num hiss
      simp only [beq_iff_eq, this]
      exact hx x (List.mem_cons_self x l)
    rw [h0, List.nil_append]

/-- With pairwise-distinct slide numbers, filtering the aggregated issue
list down to one slide number returns exactly that slide's contribution. -/
theorem join_filter_single {target : Nat} :
    ∀ (l : List SlideData) (total : Nat) (s : SlideData), s ∈ l →
      s.number = target → (l.map SlideData.number).Nodup →
      ((l.map (perSlideIssues total)).flatten.filter
        (fun iss => iss.slide_num == target)) = perSlideIssues total s := by
  intro l
  induction l with
  | nil => intro total s hs; cases hs
  | cons x l ih =>
    intro total s hs htarget hnodup
    rw [List.map_cons, List.nodup_cons] at hnodup
    rw [List.map_cons, List.flatten_cons, List.filter_append]
    rcases List.mem_cons.mp hs with rfl | hmem
    · have hfx : (perSlideIssues total s).filter
          (fun iss => iss.slide_num == target) = perSlideIssues total s := by
        apply List.filter_eq_self.mpr
        intro iss hiss
        simp [perSlideIssues_slide_num hiss, htarget]
      have hrest : ∀ y ∈ l, y.number ≠ target := by
        intro y hy hcon
        exact hnodup.1 (htarget ▸ hcon ▸ List.mem_map_of_mem SlideData.number hy)
      rw [hfx, join_filter_none l total hrest, List.append_nil]
    · have hxne : x.number ≠ target := by
        intro hcon
        have hsmem : s.number ∈ l.map SlideData.number :=
          List.mem_map_of_mem SlideData.number hmem
        rw [htarget, ← hcon] at hsmem
        exact hnodup.1 hsmem
      have hfx : (perSlideIssues total x).filter
          (fun iss => iss.slide_num == target) = [] := by
        apply List.filter_eq_nil_iff.mpr
        intro iss hiss
        simp [perSlideIssues_slide_num hiss, hxne]
      rw [hfx, List.nil_append]
      exact ih total s hmem htarget hnodup.2

/-- The shape loop never changes the slide number. -/
theorem extractSlide_number (i : Nat) (sl : PSlide) :
    (extractSlide i sl).number = i + 1 := by
  rw [extractSlide]
  have aux : ∀ (shapes : List Shape) (data : SlideData),
      (shapes.foldl
        (fun data sh =>
          if sh.hasTextFrame then
            let scanned := shapeScan sh
            if pyStrip scanned.1 ≠ [] then
              { data with
                total_text := data.total_text ++ scanned.1,
                bullet_count := data.bullet_count + scanned.2,
                title :=
                  if sh.isTitle then (splitLines (pyStrip scanned.1)).headD []
                  else data.title }
            else data
          else data) data).number = data.number := by
    intro shapes
    induction shapes with
    | nil => intro data; rfl
    | cons sh shapes ih =>
      intro data
      rw [List.foldl_cons, ih]
      dsimp only
      split_ifs <;> rfl
  exact aux sl.shapes _

/-- The slide numbers of `extract_slide_content` are 1, 2, ... in order. -/
theorem extract_slide_content_map_number (slides : List PSlide) :
    (extract_slide_content slides).map SlideData.number =
      (List.range slides.length).map (· + 1) := by
  rw [extract_slide_content, List.map_map]
  have h : (SlideData.number ∘ fun p : Nat × PSlide => extractSlide p.1 p.2) =
      ((· + 1) ∘ (Prod.fst : Nat × PSlide → Nat)) := by
    funext p
    exact extractSlide_number p.1 p.2
  rw [h, ← List.map_map, List.enum_map_fst]

theorem extract_slide_content_length (slides : List PSlide) :
    (extract_slide_content slides).length = slides.length := by
  rw [extract_slide_content, List.length_map, List.enum_length]

end FinalPassAgent

/-- Counterexample for C4.  A slide (number 3 of 4, exempt from none of
the fixed-index exemptions) carrying exactly 2 countable bullets yields no
bullet-count issue at all, not a "too_few_bullets" warning: the code warns
only below 2. -/
theorem c4_counterexample :
    ((FinalPassAgent.extract_slide_content
        [⟨[]⟩, ⟨[]⟩,
          ⟨[⟨false, true, ["this paragraph is long".toList,
            "another long paragraph".toList]⟩]⟩, ⟨[]⟩]).get? 2).map
        FinalPassAgent.SlideData.bullet_count = some 2 ∧
    FinalPassAgent.validate_bullet_count
      (FinalPassAgent.extract_slide_content
        [⟨[]⟩, ⟨[]⟩,
          ⟨[⟨false, true, ["this paragraph is long".toList,
            "another long paragraph".toList]⟩]⟩, ⟨[]⟩]) = [] := by
  exact ⟨by decide, by decide⟩

/-- C4 as amended: in the QA bullet-count check, which exempts slides 1, 2
and the last slide by fixed index, a non-exempt slide with 0 or 1
countable bullets yields exactly one warning issue of type
"too_few_bullets"; one with 2 to 6 countable bullets yields no
bullet-count issue; one with 7 or more yields exactly one
"too_many_bullets" warning. -/
theorem c4_amended_bullet_thresholds (deck : List FinalPassAgent.PSlide)
    (k : Nat) (s : FinalPassAgent.SlideData)
    (hget : (FinalPassAgent.extract_slide_content deck).get? k = some s)
    (h1 : k + 1 ≠ 1) (h2 : k + 1 ≠ 2)
    (hlast : k + 1 ≠ (FinalPassAgent.extract_slide_content deck).length) :
    (s.bullet_count < 2 →
      (FinalPassAgent.validate_bullet_count
          (FinalPassAgent.extract_slide_content deck)).filter
          (fun iss => iss.slide_num == s.number) =
        [⟨s.number, "too_few_bullets".toList,
          FinalPassAgent.tooFewDescription s.bullet_count, "warning".toList⟩]) ∧
    (2 ≤ s.bullet_count ∧ s.bullet_count ≤ 6 →
      (FinalPassAgent.validate_bullet_count
          (FinalPassAgent.extract_slide_content deck)).filter
          (fun iss => iss.slide_num == s.number) = []) ∧
    (6 < s.bullet_count →
      (FinalPassAgent.validate_bullet_count
          (FinalPassAgent.extract_slide_content deck)).filter
          (fun iss => iss.slide_num == s.number) =
        [⟨s.number, "too_many_bullets".toList,
          FinalPassAgent.tooManyDescription s.bullet_count, "warning".toList⟩]) := by
  have hklen : k < (FinalPassAgent.extract_slide_content deck).length := by
    rcases List.get?_eq_some.mp hget with ⟨h, _⟩
    exact h
  have hnum : s.number = k + 1 := by
    have hmapnum := congrArg (fun l => l.get? k)
      (FinalPassAgent.extract_slide_content_map_number deck)
    simp only [List.get?_map] at hmapnum
    rw [hget] at hmapnum
    have hk2 : k < deck.length := by
      rwa [FinalPassAgent.extract_slide_content_length] at hklen
    rw [List.get?_range hk2] at hmapnum
    exact Option.some_injective _ hmapnum.symm |>.symm ▸ (by
      simpa using hmapnum)
  have hnodup : ((FinalPassAgent.extract_slide_content deck).map
      FinalPassAgent.SlideData.number).Nodup := by
    rw [FinalPassAgent.extract_slide_content_map_number]
    exact (List.nodup_range _).map (fun a b => by omega)
  have hmem : s ∈ FinalPassAgent.extract_slide_content deck :=
    List.get?_mem hget
  have hkey : (FinalPassAgent.validate_bullet_count
      (FinalPassAgent.extract_slide_content deck)).filter
      (fun iss => iss.slide_num == s.number) =
      FinalPassAgent.perSlideIssues
        (FinalPassAgent.extract_slide_content deck).length s := by
    rw [FinalPassAgent.validate_bullet_count_eq_flatten]
    exact FinalPassAgent.join_filter_single _ _ s hmem rfl hnodup
  rw [hkey, FinalPassAgent.perSlideIssues]
  rw [if_neg (by rw [hnum]; push_neg; exact ⟨h1, h2, hlast⟩)]
  refine ⟨fun h => ?_, fun h => ?_, fun h => ?_⟩
  · rw [if_pos h]
  · rw [if_neg (by omega), if_neg (by omega)]
  · rw [if_neg (by omega), if_pos (by omega)]

/-- Witness for the amended C4: in a 5-slide deck whose third slide has a
single countable bullet, the check reports exactly one too-few warning
for slide 3. -/
theorem c4_amended_bullet_thresholds_witness :
    (FinalPassAgent.validate_bullet_count
        (FinalPassAgent.extract_slide_content
          [⟨[]⟩, ⟨[]⟩, ⟨[⟨false, true, ["only one long paragraph".toList]⟩]⟩,
            ⟨[]⟩, ⟨[]⟩])).filter (fun iss => iss.slide_num == 3) =
      [⟨3, "too_few_bullets".toList, FinalPassAgent.tooFewDescription 1,
        "warning".toList⟩] := by
  have h := c4_amended_bullet_thresholds
    [⟨[]⟩, ⟨[]⟩, ⟨[⟨false, true, ["only one long paragraph".toList]⟩]⟩,
      ⟨[]⟩, ⟨[]⟩] 2
    ⟨3, [], "only one long paragraph".toList ++ ['\n'], 1⟩
    (by decide) (by decide) (by decide) (by decide)
  simpa using h.1 (by decide)

/-!
## Supporting lemmas for the QA content extraction (C10)
-/

/-- The head of a `dropWhile` result fails the predicate. -/
theorem dropWhile_head_false {p : Char → Bool} :
    ∀ {l : List Char} {c : Char} {t : List Char},
      l.dropWhile p = c :: t → p c = false := by
  intro l
  induction l with
  | nil => intro c t h; cases h
  | cons x l ih =>
    intro c t h
    rw [List.dropWhile_cons] at h
    split at h
    · exact ih h
    · cases h
      simp_all

/-- A non-empty stripped string contains a non-whitespace character. -/
theorem pyStrip_mem_not_space {s : List Char} (h : pyStrip s ≠ []) :
    ∃ c ∈ pyStrip s, isPySpace c = false := by
  rw [pyStrip] at h ⊢
  cases hx : (s.dropWhile isPySpace).reverse.dropWhile isPySpace with
  | nil => rw [hx] at h; simp at h
  | cons c t =>
    refine ⟨c, ?_, dropWhile_head_false hx⟩
    simp

/-- If a string strips to nothing, all of its characters are whitespace. -/
theorem pyStrip_eq_nil_all {s : List Char} (h : pyStrip s = []) :
    ∀ c ∈ s, isPySpace c = true := by
  rw [pyStrip] at h
  have h2 : (s.dropWhile isPySpace).reverse.dropWhile isPySpace = [] := by
    cases hx : (s.dropWhile isPySpace).reverse.dropWhile isPySpace with
    | nil => rfl
    | cons c t => rw [hx] at h; simp at h
  have h3 : ∀ c ∈ (s.dropWhile isPySpace).reverse, isPySpace c := by
    intro c hc
    exact List.dropWhile_eq_nil_iff.mp h2 c hc
  intro c hc
  rw [← List.takeWhile_append_dropWhile (p := isPySpace) (l := s)] at hc
  rcases List.mem_append.mp hc with hc | hc
  · exact List.mem_takeWhile_imp hc
  · exact h3 c (List.mem_reverse.mpr hc)

/-- A string containing a non-whitespace character does not strip to
nothing. -/
theorem pyStrip_ne_nil_of_mem {s : List Char} {c : Char} (hc : c ∈ s)
    (hw : isPySpace c = false) : pyStrip s ≠ [] := by
  intro h
  rw [pyStrip_eq_nil_all h c hc] at hw
  cases hw

namespace FinalPassAgent

/-- Countable paragraphs of a shape: those whose stripped text is longer
than 10 characters.  The definition does not look at `isTitle`. -/
def countableParas (sh : Shape) : Nat :=
  (sh.paragraphs.filter fun p => decide (10 < (pyStrip p).length)).length

/-- Closed form of the per-shape loop: the accumulated text is the
concatenation of the non-empty stripped paragraphs (each followed by a
newline) and the counter counts the paragraphs stripping to more than 10
characters. -/
theorem shapeScan_spec (sh : Shape) :
    shapeScan sh =
      ((sh.paragraphs.map fun p =>
          if pyStrip p ≠ [] then pyStrip p ++ ['\n'] else []).flatten,
        countableParas sh) := by
  rw [shapeScan, countableParas]
  have aux : ∀ (ps : List (List Char)) (t : List Char) (c : Nat),
      ps.foldl
        (fun acc para =>
          let pt := pyStrip para
          if pt ≠ [] then
            (acc.1 ++ pt ++ ['\n'], if pt.length > 10 then acc.2 + 1 else acc.2)
          else acc) (t, c) =
        (t ++ (ps.map fun p =>
            if pyStrip p ≠ [] then pyStrip p ++ ['\n'] else []).flatten,
          c + (ps.filter fun p => decide (10 < (pyStrip p).length)).length) := by
    intro ps
    induction ps with
    | nil => intro t c; simp
    | cons p ps ih =>
      intro t c
      rw [List.foldl_cons]
      dsimp only
      by_cases hp : pyStrip p = []
      · have hlen : ¬(10 < (pyStrip p).length) := by
          rw [hp]
          simp
        simp only [hp, ne_eq, not_true_eq_false, if_false, ite_false,
          List.filter_cons, hlen, decide_eq_true_eq]
        rw [ih]
        simp [hp, hlen]
      · by_cases hl : (pyStrip p).length > 10
        · simp only [hp, ne_eq, not_false_eq_true, if_true, ite_true, hl]
          rw [ih]
          simp [hp, hl, List.filter_cons]
          omega
        · simp only [hp, ne_eq, not_false_eq_true, if_true, ite_true, hl,
            if_false, ite_false]
          rw [ih]
          simp [hp, hl, List.filter_cons]
  rw [aux sh.paragraphs [] 0]
  simp

/-- A shape with a countable paragraph has text that does not strip to
nothing, so the extraction guard keeps its count. -/
theorem shapeScan_strip_ne_nil_of_countable {sh : Shape}
    (h : countableParas sh ≠ 0) : pyStrip (shapeScan sh).1 ≠ [] := by
  rw [countableParas] at h
  have hne : sh.paragraphs.filter (fun p => decide (10 < (pyStrip p).length)) ≠ [] := by
    intro hnil
    rw [hnil] at h
    simp at h
  rcases List.exists_mem_of_ne_nil _ hne with ⟨p, hp⟩
  have hpmem := List.mem_of_mem_filter hp
  have hplen := List.of_mem_filter hp
  have hlen : 10 < (pyStrip p).length := of_decide_eq_true hplen
  have hpne : pyStrip p ≠ [] := by
    intro hnil
    rw [hnil] at hlen
    simp at hlen
  rcases pyStrip_mem_not_space hpne with ⟨c, hcmem, hcw⟩
  have hctext : c ∈ (shapeScan sh).1 := by
    rw [shapeScan_spec]
    simp only
    apply List.mem_flatten.mpr
    refine ⟨pyStrip p ++ ['\n'], ?_, List.mem_append_left _ hcmem⟩
    have := List.mem_map_of_mem
      (fun p => if pyStrip p ≠ [] then pyStrip p ++ ['\n'] else []) hpmem
    simpa [hpne] using this
  exact pyStrip_ne_nil_of_mem hctext hcw

/-- The extracted bullet count of a slide is the total number of countable
paragraphs over all of its text-frame shapes, the title placeholder
included. -/
theorem extractSlide_bullet_count (i : Nat) (sl : PSlide) :
    (extractSlide i sl).bullet_count =
      ((sl.shapes.filter Shape.hasTextFrame).map countableParas).sum := by
  rw [extractSlide]
  have aux : ∀ (shapes : List Shape) (data : SlideData),
      (shapes.foldl
        (fun data sh =>
          if sh.hasTextFrame then
            let scanned := shapeScan sh
            if pyStrip scanned.1 ≠ [] then
              { data with
                total_text := data.total_text ++ scanned.1,
                bullet_count := data.bullet_count + scanned.2,
                title :=
                  if sh.isTitle then (splitLines (pyStrip scanned.1)).headD []
                  else data.title }
            else data
          else data) data).bullet_count =
        data.bullet_count + ((shapes.filter Shape.hasTextFrame).map countableParas).sum := by
    intro shapes
    induction shapes with
    | nil => intro data; simp
    | cons sh shapes ih =>
      intro data
      rw [List.foldl_cons]
      dsimp only
      by_cases hf : sh.hasTextFrame
      · by_cases hg : pyStrip (shapeScan sh).1 = []
        · have hz : countableParas sh = 0 := by
            by_contra hnz
            exact shapeScan_strip_ne_nil_of_countable hnz hg
          simp only [hf, if_true, hg, ne_eq, not_true_eq_false, if_false, ite_false]
          rw [ih]
          simp [List.filter_cons, hf, hz]
        · simp only [hf, if_true, hg, ne_eq, not_false_eq_true, if_true, ite_true]
          rw [ih]
          have hsnd : (shapeScan sh).2 = countableParas sh := by
            rw [shapeScan_spec]
          simp [List.filter_cons, hf, hsnd]
          omega
      · simp only [hf, if_false]
        rw [ih]
        simp [List.filter_cons, hf]
  exact (aux sl.shapes _).trans (by simp)

end FinalPassAgent

/-- C10: during QA content extraction, every paragraph stripping to more
than 10 characters in every text frame of a slide, including the title
placeholder text, counts toward the slide bullet count; consequently a
content slide with a title longer than 10 characters and exactly three
long body bullets reports a bullet count of 4, not 3. -/
theorem c10_title_counted_in_bullets :
    (∀ (i : Nat) (sl : FinalPassAgent.PSlide),
      (FinalPassAgent.extractSlide i sl).bullet_count =
        ((sl.shapes.filter FinalPassAgent.Shape.hasTextFrame).map
          FinalPassAgent.countableParas).sum) ∧
    (FinalPassAgent.extractSlide 2
        ⟨[⟨true, true, ["A reasonably long title".toList]⟩,
          ⟨false, true, ["First long bullet point".toList,
            "Second long bullet point".toList,
            "Third long bullet point".toList]⟩]⟩).bullet_count = 4 := by
  exact ⟨FinalPassAgent.extractSlide_bullet_count, by decide⟩

namespace FinalPassAgent

/-!
## Grammar-feedback parsing (`check_grammar_and_clarity`, lines 259-275)
-/

/-- Python `needle in hay` for strings. -/
def hasSub (needle : List Char) : List Char → Bool
  | [] => needle.isEmpty
  | c :: rest => needle.isPrefixOf (c :: rest) || hasSub needle rest

/-- Value of a (non-empty) decimal digit string, as `int()` computes it. -/
def digitsToNat (ds : List Char) : Nat :=
  ds.foldl (fun n d => n * 10 + (d.toNat - 48)) 0

/-- `re.search(r'SLIDE\s*(\d+)', line)`: find the leftmost occurrence of
the literal SLIDE that is followed, after optional whitespace, by at
least one digit, and return the value of the maximal digit run there. -/
def findSlideNum : List Char → Option Nat
  | [] => none
  | c :: rest =>
    if "SLIDE".toList.isPrefixOf (c :: rest) then
      let ds := (((c :: rest).drop 5).dropWhile isPySpace).takeWhile Char.isDigit
      if ds ≠ [] then some (digitsToNat ds) else findSlideNum rest
    else findSlideNum rest

/-- `line.split(':', 1)[1].strip() if ':' in line else line`. -/
def grammarIssueText (line : List Char) : List Char :=
  if line.contains ':' then pyStrip ((line.dropWhile (fun c => !(c = ':'))).drop 1)
  else line

/-- The per-line body of the feedback loop in `check_grammar_and_clarity`:
a line is considered only when it contains SLIDE, does not contain OK and
contains the arrow; a line with no slide-number match is silently
dropped (the try/except around `int` is dead code, since the matched
digits always parse). -/
def grammarLineIssue (line : List Char) : Option QAIssue :=
  if hasSub "SLIDE".toList line && !hasSub "OK".toList line &&
      hasSub "->".toList line then
    match findSlideNum line with
    | some n =>
      some ⟨n, "grammar".toList, grammarIssueText line, "info".toList⟩
    | none => none
  else none

/-- The feedback-parsing loop of `check_grammar_and_clarity`: walk the
reply lines in order, appending one issue per accepted line. -/
def check_grammar_parse (feedback : List Char) : List QAIssue :=
  (splitLines feedback).foldl
    (fun issues line =>
      match grammarLineIssue line with
      | some iss => issues ++ [iss]
      | none => issues)
    []

/-- The grammar loop collects exactly the per-line results, in order. -/
theorem check_grammar_parse_eq_filterMap (feedback : List Char) :
    check_grammar_parse feedback =
      (splitLines feedback).filterMap grammarLineIssue := by
  rw [check_grammar_parse]
  have aux : ∀ (ls : List (List Char)) (acc : List QAIssue),
      ls.foldl
        (fun issues line =>
          match grammarLineIssue line with
          | some iss => issues ++ [iss]
          | none => issues) acc = acc ++ ls.filterMap grammarLineIssue := by
    intro ls
    induction ls with
    | nil => simp
    | cons l ls ih =>
      intro acc
      cases h : grammarLineIssue l with
      | none => simp [List.filterMap_cons, h, ih]
      | some iss => simp [List.filterMap_cons, h, ih]
  simpa using aux (splitLines feedback) []

end FinalPassAgent

/-- C7: in the QA grammar parser, a reply line lacking the arrow or
containing OK produces no issue; any other line containing SLIDE followed
by a number produces exactly one info-severity issue of type grammar tied
to that slide number; lines not matching the pattern are silently ignored;
and the pass aggregates exactly the per-line results over all reply
lines. -/
theorem c7_grammar_line_parsing :
    (∀ feedback, FinalPassAgent.check_grammar_parse feedback =
      (splitLines feedback).filterMap FinalPassAgent.grammarLineIssue) ∧
    (∀ line, FinalPassAgent.hasSub "->".toList line = false ∨
        FinalPassAgent.hasSub "OK".toList line = true →
      FinalPassAgent.grammarLineIssue line = none) ∧
    (∀ line n, FinalPassAgent.hasSub "SLIDE".toList line = true →
      FinalPassAgent.hasSub "OK".toList line = false →
      FinalPassAgent.hasSub "->".toList line = true →
      FinalPassAgent.findSlideNum line = some n →
      FinalPassAgent.grammarLineIssue line =
        some ⟨n, "grammar".toList, FinalPassAgent.grammarIssueText line,
          "info".toList⟩) ∧
    (∀ line, FinalPassAgent.findSlideNum line = none →
      FinalPassAgent.grammarLineIssue line = none) := by
  refine ⟨FinalPassAgent.check_grammar_parse_eq_filterMap, ?_, ?_, ?_⟩
  · intro line h
    rw [FinalPassAgent.grammarLineIssue]
    rcases h with h | h
    · have h2 : FinalPassAgent.hasSub ['-', '>'] line = false := h
      simp [h2]
    · have h2 : FinalPassAgent.hasSub ['O', 'K'] line = true := h
      simp [h2]
  · intro line n hs hok harr hnum
    have hs2 : FinalPassAgent.hasSub ['S', 'L', 'I', 'D', 'E'] line = true := hs
    have hok2 : FinalPassAgent.hasSub ['O', 'K'] line = false := hok
    have harr2 : FinalPassAgent.hasSub ['-', '>'] line = true := harr
    rw [FinalPassAgent.grammarLineIssue]
    simp [hs2, hok2, harr2, hnum]
  · intro line hnum
    rw [FinalPassAgent.grammarLineIssue]
    split
    · rw [hnum]
    · rfl

/-- Witness for C7: concrete reply lines of each kind. -/
theorem c7_grammar_line_parsing_witness :
    FinalPassAgent.grammarLineIssue "SLIDE 3: vague claim -> quantify it".toList =
      some ⟨3, "grammar".toList,
        "vague claim -> quantify it".toList, "info".toList⟩ ∧
    FinalPassAgent.grammarLineIssue "SLIDE 4: OK".toList = none ∧
    FinalPassAgent.grammarLineIssue "SLIDE ?: broken -> line".toList = none := by
  refine ⟨?_, ?_, ?_⟩
  · have h := c7_grammar_line_parsing.2.2.1
      "SLIDE 3: vague claim -> quantify it".toList 3
      (by decide) (by decide) (by decide) (by decide)
    rw [h]
    decide
  · exact c7_grammar_line_parsing.2.1 "SLIDE 4: OK".toList (Or.inr (by decide))
  · exact c7_grammar_line_parsing.2.2.2 "SLIDE ?: broken -> line".toList (by decide)

namespace FinalPassAgent

/-!
## Fix generation and application (`generate_fixes`,
`apply_fixes_to_presentation`, lines 277-357)
-/

/-- A loaded slide together with its speaker-notes text (`none` while no
notes slide exists; reading `notes_slide` creates one). -/
structure NSlide where
  shapes : List Shape
  notes : Option (List Char)
deriving DecidableEq

/-- The f-string wrapped around a generated fix before it is stored in
the speaker notes. -/
def notesText (fixed : List Char) : List Char :=
  "SUGGESTED FIX (3 bullets):\n\n".toList ++ fixed ++
    "\n\n---\nOriginal had issues with bullet count.\nReview and apply manually if needed.".toList

/-- Overwrite the notes text of the slide at a 0-based index
(`slide.notes_slide.notes_text_frame.text = notes_text`). -/
def setNotes : List NSlide → Nat → List Char → List NSlide
  | [], _, _ => []
  | s :: rest, 0, t => { s with notes := some t } :: rest
  | s :: rest, i + 1, t => s :: setNotes rest i t

/-- `FinalPassAgent.apply_fixes_to_presentation`: for each fix keyed by a
slide number within range, write the wrapped text into that slide's
speaker notes.  Nothing else of the presentation is touched. -/
def apply_fixes_to_presentation (slides : List NSlide)
    (fixes : List (Nat × List Char)) : List NSlide :=
  fixes.foldl
    (fun sl fix =>
      if fix.1 ≤ sl.length then setNotes sl (fix.1 - 1) (notesText fix.2)
      else sl)
    slides

/-- `FinalPassAgent.generate_fixes`: collect the non-exempt slides whose
bullet count is out of bounds, then request a three-bullet rewrite for
each; the reply arrives through the oracle and is stripped.  The result
is the `fixes` dict as an association list in slide order. -/
def generate_fixes (oracle : List Char → List Char)
    (slides_data : List SlideData) : List (Nat × List Char) :=
  let problem_slides := slides_data.filter fun s =>
    !(s.number == 1 || s.number == 2 || s.number == slides_data.length) &&
      (decide (s.bullet_count < 2) || decide (s.bullet_count > 6))
  problem_slides.map fun s => (s.number, pyStrip (oracle s.total_text))

theorem setNotes_length (t : List Char) :
    ∀ (sl : List NSlide) (i : Nat), (setNotes sl i t).length = sl.length := by
  intro sl
  induction sl with
  | nil => intro i; rfl
  | cons s rest ih =>
    intro i
    cases i with
    | zero => rfl
    | succ i => simp [setNotes, ih]

theorem setNotes_shapes (t : List Char) :
    ∀ (sl : List NSlide) (i j : Nat),
      ((setNotes sl i t).get? j).map NSlide.shapes =
        (sl.get? j).map NSlide.shapes := by
  intro sl
  induction sl with
  | nil => intro i j; rfl
  | cons s rest ih =>
    intro i j
    cases i with
    | zero =>
      cases j with
      | zero => rfl
      | succ j => rfl
    | succ i =>
      cases j with
      | zero => rfl
      | succ j =>
        simp only [setNotes, List.get?_cons_succ]
        exact ih i j

theorem setNotes_get_ne (t : List Char) :
    ∀ (sl : List NSlide) (i j : Nat), i ≠ j →
      (setNotes sl i t).get? j = sl.get? j := by
  intro sl
  induction sl with
  | nil => intro i j _; rfl
  | cons s rest ih =>
    intro i j hne
    cases i with
    | zero =>
      cases j with
      | zero => exact absurd rfl hne
      | succ j => rfl
    | succ i =>
      cases j with
      | zero => rfl
      | succ j =>
        simp only [setNotes, List.get?_cons_succ]
        exact ih i j (fun hc => hne (by rw [hc]))

theorem setNotes_get_eq (t : List Char) :
    ∀ (sl : List NSlide) (i : Nat), i < sl.length →
      ((setNotes sl i t).get? i).map NSlide.notes = some (some t) := by
  intro sl
  induction sl with
  | nil => intro i h; cases h
  | cons s rest ih =>
    intro i h
    cases i with
    | zero => rfl
    | succ i =>
      simp only [setNotes, List.get?_cons_succ]
      exact ih i (by simpa using h)

theorem apply_fixes_length (slides : List NSlide)
    (fixes : List (Nat × List Char)) :
    (apply_fixes_to_presentation slides fixes).length = slides.length := by
  rw [apply_fixes_to_presentation]
  have aux : ∀ (fixes : List (Nat × List Char)) (sl : List NSlide),
      (fixes.foldl
        (fun sl fix =>
          if fix.1 ≤ sl.length then setNotes sl (fix.1 - 1) (notesText fix.2)
          else sl) sl).length = sl.length := by
    intro fixes
    induction fixes with
    | nil => intro sl; rfl
    | cons fix fixes ih =>
      intro sl
      rw [List.foldl_cons]
      split
      · rw [ih, setNotes_length]
      · rw [ih]
  exact aux fixes slides

/-- One step of the fix-application loop. -/
theorem apply_fixes_cons (slides : List NSlide) (fix : Nat × List Char)
    (fixes : List (Nat × List Char)) :
    apply_fixes_to_presentation slides (fix :: fixes) =
      apply_fixes_to_presentation
        (if fix.1 ≤ slides.length then
          setNotes slides (fix.1 - 1) (notesText fix.2)
        else slides) fixes := by
  rw [apply_fixes_to_presentation, apply_fixes_to_presentation, List.foldl_cons]

/-- The fix-application loop splits over list append. -/
theorem apply_fixes_append (slides : List NSlide)
    (f₁ f₂ : List (Nat × List Char)) :
    apply_fixes_to_presentation slides (f₁ ++ f₂) =
      apply_fixes_to_presentation
        (apply_fixes_to_presentation slides f₁) f₂ := by
  rw [apply_fixes_to_presentation, apply_fixes_to_presentation,
    apply_fixes_to_presentation, List.foldl_append]

theorem apply_fixes_shapes :
    ∀ (fixes : List (Nat × List Char)) (slides : List NSlide) (j : Nat),
      ((apply_fixes_to_presentation slides fixes).get? j).map NSlide.shapes =
        (slides.get? j).map NSlide.shapes := by
  intro fixes
  induction fixes with
  | nil => intro slides j; rfl
  | cons fix fixes ih =>
    intro slides j
    rw [apply_fixes_cons]
    split
    · rw [ih, setNotes_shapes]
    · rw [ih]

theorem apply_fixes_untouched :
    ∀ (fixes : List (Nat × List Char)) (slides : List NSlide) (i : Nat),
      (∀ p ∈ fixes, 1 ≤ p.1 ∧ p.1 ≠ i + 1) →
      (apply_fixes_to_presentation slides fixes).get? i = slides.get? i := by
  intro fixes
  induction fixes with
  | nil => intro slides i _; rfl
  | cons fix fixes ih =>
    intro slides i hp
    have hfix := hp fix (List.mem_cons_self fix fixes)
    have hrest := fun p hm => hp p (List.mem_cons_of_mem fix hm)
    rw [apply_fixes_cons]
    rw [ih _ _ hrest]
    split
    · rw [setNotes_get_ne _ _ _ _ (by omega)]
    · rfl

theorem apply_fixes_written (slides : List NSlide) (n : Nat) (t : List Char)
    (fixes₁ fixes₂ : List (Nat × List Char)) (h1 : 1 ≤ n)
    (h2 : n ≤ slides.length) (hafter : ∀ p ∈ fixes₂, 1 ≤ p.1 ∧ p.1 ≠ n) :
    ((apply_fixes_to_presentation slides
        (fixes₁ ++ (n, t) :: fixes₂)).get? (n - 1)).map NSlide.notes =
      some (some (notesText t)) := by
  have hafter2 : ∀ p ∈ fixes₂, 1 ≤ p.1 ∧ p.1 ≠ (n - 1) + 1 := by
    intro p hp
    have := hafter p hp
    omega
  rw [apply_fixes_append, apply_fixes_cons]
  rw [if_pos (show (n, t).1 ≤ (apply_fixes_to_presentation slides fixes₁).length by
    rw [apply_fixes_length]; exact h2)]
  rw [apply_fixes_untouched fixes₂ _ (n - 1) hafter2]
  exact setNotes_get_eq _ _ _ (by rw [apply_fixes_length]; omega)

/-- Unpacking membership in the generated fix list. -/
theorem generate_fixes_mem {oracle : List Char → List Char}
    {sd : List SlideData} {p : Nat × List Char}
    (hp : p ∈ generate_fixes oracle sd) :
    ∃ s ∈ sd, p.1 = s.number ∧
      ¬(s.number = 1 ∨ s.number = 2 ∨ s.number = sd.length) ∧
      (s.bullet_count < 2 ∨ s.bullet_count > 6) ∧
      p.2 = pyStrip (oracle s.total_text) := by
  rw [generate_fixes] at hp
  rcases List.mem_map.mp hp with ⟨s, hs, hps⟩
  have hfil := List.mem_of_mem_filter hs
  have hcond := List.of_mem_filter hs
  simp only [Bool.and_eq_true, Bool.not_eq_true', Bool.or_eq_false_iff,
    beq_eq_false_iff_ne, Bool.or_eq_true, decide_eq_true_eq] at hcond
  refine ⟨s, hfil, ?_, ?_, ?_, ?_⟩
  · rw [← hps]
  · push_neg
    exact ⟨hcond.1.1.1, hcond.1.1.2, hcond.1.2⟩
  · exact hcond.2
  · rw [← hps]

/-- Keys of fixes generated from an extracted deck are valid 1-based
slide numbers other than 1 and 2. -/
theorem generate_fixes_keys {oracle : List Char → List Char}
    {deck : List PSlide} {p : Nat × List Char}
    (hp : p ∈ generate_fixes oracle (extract_slide_content deck)) :
    1 ≤ p.1 ∧ p.1 ≠ 1 ∧ p.1 ≠ 2 := by
  rcases generate_fixes_mem hp with ⟨s, hs, hnum, hskip, _, _⟩
  push_neg at hskip
  have hpos : 1 ≤ s.number := by
    have hmem : s.number ∈ (extract_slide_content deck).map SlideData.number :=
      List.mem_map_of_mem SlideData.number hs
    rw [extract_slide_content_map_number] at hmem
    rcases List.mem_map.mp hmem with ⟨k, _, hk⟩
    omega
  exact ⟨hnum ▸ hpos, hnum ▸ hskip.1, hnum ▸ hskip.2.1⟩

end FinalPassAgent

/-- C8: applying generated fixes writes the wrapped suggestion text only
into the targeted slides' speaker notes.  The slide list keeps its
length, every slide keeps its shapes (the visible body text), untargeted
slides are entirely unchanged, and the last fix for a slide number n in
range leaves exactly the wrapped text in slide n's notes; fixes generated
from an extracted deck always target valid slide numbers other than 1 and
2. -/
theorem c8_fixes_touch_only_notes :
    (∀ (slides : List FinalPassAgent.NSlide) fixes,
      (FinalPassAgent.apply_fixes_to_presentation slides fixes).length =
        slides.length) ∧
    (∀ fixes (slides : List FinalPassAgent.NSlide) (j : Nat),
      ((FinalPassAgent.apply_fixes_to_presentation slides fixes).get? j).map
          FinalPassAgent.NSlide.shapes =
        (slides.get? j).map FinalPassAgent.NSlide.shapes) ∧
    (∀ fixes (slides : List FinalPassAgent.NSlide) (i : Nat),
      (∀ p ∈ fixes, 1 ≤ p.1 ∧ p.1 ≠ i + 1) →
      (FinalPassAgent.apply_fixes_to_presentation slides fixes).get? i =
        slides.get? i) ∧
    (∀ (slides : List FinalPassAgent.NSlide) (n : Nat) (t : List Char)
        (fixes₁ fixes₂ : List (Nat × List Char)),
      1 ≤ n → n ≤ slides.length → (∀ p ∈ fixes₂, 1 ≤ p.1 ∧ p.1 ≠ n) →
      ((FinalPassAgent.apply_fixes_to_presentation slides
          (fixes₁ ++ (n, t) :: fixes₂)).get? (n - 1)).map
          FinalPassAgent.NSlide.notes =
        some (some (FinalPassAgent.notesText t))) ∧
    (∀ (oracle : List Char → List Char) (deck : List FinalPassAgent.PSlide)
        (p : Nat × List Char),
      p ∈ FinalPassAgent.generate_fixes oracle
          (FinalPassAgent.extract_slide_content deck) →
      1 ≤ p.1 ∧ p.1 ≠ 1 ∧ p.1 ≠ 2) :=
  ⟨FinalPassAgent.apply_fixes_length,
    FinalPassAgent.apply_fixes_shapes,
    FinalPassAgent.apply_fixes_untouched,
    FinalPassAgent.apply_fixes_written,
    fun _ _ _ hp => FinalPassAgent.generate_fixes_keys hp⟩

/-- Witness for C8: one concrete fix for slide 3 of a four-slide deck
lands in that slide's notes, leaves its shapes alone and leaves slide 1
untouched. -/
theorem c8_fixes_touch_only_notes_witness :
    (FinalPassAgent.apply_fixes_to_presentation
        [⟨[], none⟩, ⟨[], none⟩, ⟨[⟨false, true, []⟩], none⟩, ⟨[], none⟩]
        [(3, "- x\n- y\n- z".toList)]).length = 4 ∧
    ((FinalPassAgent.apply_fixes_to_presentation
        [⟨[], none⟩, ⟨[], none⟩, ⟨[⟨false, true, []⟩], none⟩, ⟨[], none⟩]
        [(3, "- x\n- y\n- z".toList)]).get? 2).map
        FinalPassAgent.NSlide.shapes = some [⟨false, true, []⟩] ∧
    ((FinalPassAgent.apply_fixes_to_presentation
        [⟨[], none⟩, ⟨[], none⟩, ⟨[⟨false, true, []⟩], none⟩, ⟨[], none⟩]
        [(3, "- x\n- y\n- z".toList)]).get? 2).map
        FinalPassAgent.NSlide.notes =
      some (some (FinalPassAgent.notesText "- x\n- y\n- z".toList)) ∧
    (FinalPassAgent.apply_fixes_to_presentation
        [⟨[], none⟩, ⟨[], none⟩, ⟨[⟨false, true, []⟩], none⟩, ⟨[], none⟩]
        [(3, "- x\n- y\n- z".toList)]).get? 0 = some ⟨[], none⟩ := by
  refine ⟨c8_fixes_touch_only_notes.1 _ _, ?_, ?_, ?_⟩
  · rw [c8_fixes_touch_only_notes.2.1]
    rfl
  · have h := c8_fixes_touch_only_notes.2.2.2.1
      [⟨[], none⟩, ⟨[], none⟩, ⟨[⟨false, true, []⟩], none⟩, ⟨[], none⟩]
      3 "- x\n- y\n- z".toList [] []
      (by omega) (by simp) (by intro p hp; cases hp)
    simpa using h
  · have h := c8_fixes_touch_only_notes.2.2.1
      [(3, "- x\n- y\n- z".toList)]
      [⟨[], none⟩, ⟨[], none⟩, ⟨[⟨false, true, []⟩], none⟩, ⟨[], none⟩]
      0 ?_
    · rw [h]
      rfl
    · intro p hp
      rw [List.mem_singleton] at hp
      rw [hp]
      omega

namespace DuckDuckGoSearch

/-!
## The search client (`Slide1_Agent/agent.py` lines 26-48, and the same
class in the other research agents)

The provider call (`self.ddgs.text` / `self.ddgs.news` materialised by
`list(...)`) either yields a result list or raises; it is modelled as an
`Except` value.  The client catches every exception, logs, and returns
the empty list, so its own result type is a plain list.
-/

/-- One search result record. -/
structure SearchResult where
  title : List Char
  snippet : List Char
  url : List Char
deriving DecidableEq

/-- `DuckDuckGoSearch.web_search`: the provider's list on success, `[]`
on any provider exception. -/
def web_search (provider : Except (List Char) (List SearchResult)) :
    List SearchResult :=
  match provider with
  | .ok results => results
  | .error _ => []

/-- `DuckDuckGoSearch.news_search`: identical handling for the
recency-biased news flavour. -/
def news_search (provider : Except (List Char) (List SearchResult)) :
    List SearchResult :=
  match provider with
  | .ok results => results
  | .error _ => []

end DuckDuckGoSearch

/-- C9: both search flavours return the provider's ordered result list on
success and the empty sequence whenever the provider call raises; the
client's return type is a plain list, so no exception crosses the client
boundary. -/
theorem c9_search_never_raises :
    (∀ (outcome : Except (List Char) (List DuckDuckGoSearch.SearchResult))
        (results : List DuckDuckGoSearch.SearchResult),
      outcome = .ok results →
        DuckDuckGoSearch.web_search outcome = results ∧
        DuckDuckGoSearch.news_search outcome = results) ∧
    (∀ (outcome : Except (List Char) (List DuckDuckGoSearch.SearchResult))
        (e : List Char),
      outcome = .error e →
        DuckDuckGoSearch.web_search outcome = [] ∧
        DuckDuckGoSearch.news_search outcome = []) := by
  constructor
  · intro outcome results h
    subst h
    exact ⟨rfl, rfl⟩
  · intro outcome e h
    subst h
    exact ⟨rfl, rfl⟩

/-- Witness for C9 at a concrete success and a concrete failure. -/
theorem c9_search_never_raises_witness :
    DuckDuckGoSearch.web_search
        (.ok [⟨"t".toList, "s".toList, "u".toList⟩]) =
      [⟨"t".toList, "s".toList, "u".toList⟩] ∧
    DuckDuckGoSearch.news_search (.error "timeout".toList) = [] := by
  exact ⟨(c9_search_never_raises.1 _ [⟨"t".toList, "s".toList, "u".toList⟩]
      rfl).1,
    (c9_search_never_raises.2 _ "timeout".toList rfl).2⟩

namespace PowerPointAgent

/-!
## `PowerPointAgent.parse_thesis` (lines 83-120)

The four regular expressions of the parser are embedded as deterministic
scanners with the semantics of the Python `re` module on their specific
patterns.

- Region, pattern A = double-star Region double-star colon, regex
  `A\s*(.+?)$` with MULTILINE: at the leftmost occurrence of the literal,
  greedy `\s*` backtracks from the longest whitespace run down until the
  lazy group, which (because `.` excludes newlines and `$` sits at the
  line end) is the non-empty remainder of the current line.
- Sector, regex `^## (.+?)$` with MULTILINE: the first line that starts
  with the level-2 header marker and is non-empty after it.
- Executive summary, regex
  `## Executive Summary\s*\n+(.*?)(?=\n---|\n## \d)` with DOTALL: after
  the literal, the whitespace run must contain a newline, and the lazy
  group runs to the first lookahead hit; with no hit there is no match.
  The group is reported from the end of the whitespace run; it differs
  from the Python group only by leading whitespace, which the caller
  strips away.
- Sections, regex `## (\d+)\. (.+?)\n(.*?)(?=\n## \d|\n---\s*\n## Methodology|$)`
  with DOTALL, iterated by `finditer`: matches scan left to right and
  resume after each match; the lazy title runs to the first newline and
  the lazy content to the first boundary, which always exists because
  `$` holds at the end of input (or just before a final newline).
-/

/-- Try the lazy `(.+?)$` at whitespace offsets `k, k-1, ..., 0`
(greedy `\s*` prefers the longest offset). -/
def matchRegionTailGo (tail : List Char) : Nat → Option (List Char)
  | 0 =>
    let line := tail.takeWhile fun c => !(c == '\n')
    if line.isEmpty then none else some line
  | k + 1 =>
    let line := (tail.drop (k + 1)).takeWhile fun c => !(c == '\n')
    if line.isEmpty then matchRegionTailGo tail k else some line

/-- Match `\s*(.+?)$` at the start of `tail`. -/
def matchRegionTail (tail : List Char) : Option (List Char) :=
  matchRegionTailGo tail (tail.takeWhile isPySpace).length

/-- `re.search` for the Region pattern: leftmost literal occurrence whose
tail matches. -/
def regionSearch : List Char → Option (List Char)
  | [] => none
  | c :: rest =>
    if "**Region**:".toList.isPrefixOf (c :: rest) then
      match matchRegionTail ((c :: rest).drop 11) with
      | some g => some g
      | none => regionSearch rest
    else regionSearch rest

/-- `re.search` for the sector pattern: first non-empty level-2 header
line. -/
def sectorSearch (md : List Char) : Option (List Char) :=
  (splitLines md).findSome? fun l =>
    if "## ".toList.isPrefixOf l && !(l.drop 3).isEmpty then some (l.drop 3)
    else none

/-- The executive-summary lookahead `(?=\n---|\n## \d)`. -/
def execBoundary (s : List Char) : Bool :=
  "\n---".toList.isPrefixOf s ||
    (match s with
     | c1 :: c2 :: c3 :: c4 :: c5 :: _ =>
       c1 == '\n' && c2 == '#' && c3 == '#' && c4 == ' ' && c5.isDigit
     | _ => false)

/-- Lazy `(.*?)` up to the first summary boundary; `none` when no
boundary follows (the whole match then fails). -/
def execContent : List Char → Option (List Char)
  | [] => none
  | c :: rest =>
    if execBoundary (c :: rest) then some []
    else (execContent rest).map fun t => c :: t

/-- `re.search` for the executive-summary pattern. -/
def execSearch : List Char → Option (List Char)
  | [] => none
  | c :: rest =>
    if "## Executive Summary".toList.isPrefixOf (c :: rest) then
      let after := (c :: rest).drop 20
      let w := after.takeWhile isPySpace
      if w.contains '\n' then
        match execContent (after.drop w.length) with
        | some content => some content
        | none => execSearch rest
      else execSearch rest
    else execSearch rest

/-- Does the text start with a numbered level-2 section header
(`## ` followed by a digit)? -/
def startsSectionHeader (s : List Char) : Bool :=
  match s with
  | c1 :: c2 :: c3 :: c4 :: _ => c1 == '#' && c2 == '#' && c3 == ' ' && c4.isDigit
  | _ => false

/-- `\s*` then the literal newline-Methodology header (part of the
section lookahead). -/
def wsThenMethodology : List Char → Bool
  | [] => false
  | c :: rest =>
    "\n## Methodology".toList.isPrefixOf (c :: rest) ||
      (isPySpace c && wsThenMethodology rest)

/-- Does the text start with the horizontal-rule marker of the section
lookahead (newline then three dashes)? -/
def hrStart (s : List Char) : Bool :=
  match s with
  | c1 :: c2 :: c3 :: c4 :: _ => c1 == '\n' && c2 == '-' && c3 == '-' && c4 == '-'
  | _ => false

/-- The section lookahead `(?=\n## \d|\n---\s*\n## Methodology|$)`; with
DOTALL and no MULTILINE, `$` holds only at the end of input or just
before a final newline. -/
def sectionBoundary (s : List Char) : Bool :=
  (match s with
   | c :: rest => c == '\n' && startsSectionHeader rest
   | [] => false) ||
    (hrStart s && wsThenMethodology (s.drop 4)) ||
    s.isEmpty || s == ['\n']

/-- Lazy `(.+?)\n`: the shortest non-empty prefix followed by a newline
(the title and the remainder after its newline), if any. -/
def titleSplit : List Char → Option (List Char × List Char)
  | [] => none
  | c :: rest =>
    match rest.dropWhile (fun x => !(x == '\n')) with
    | _ :: r2 => some (c :: rest.takeWhile (fun x => !(x == '\n')), r2)
    | [] => none

/-- Lazy `(.*?)` up to the first section boundary (which always exists,
at the latest at the end of input). -/
def contentSplit : List Char → List Char × List Char
  | [] => ([], [])
  | c :: rest =>
    if sectionBoundary (c :: rest) then ([], c :: rest)
    else
      let p := contentSplit rest
      (c :: p.1, p.2)

/-- Match the whole section pattern at the start of `s`: header marker,
digit run, dot-space, lazy title to its newline, lazy content to the
first boundary.  Returns the three groups and the unconsumed suffix. -/
def matchSectionAt : List Char → Option (List Char × List Char × List Char × List Char)
  | '#' :: '#' :: ' ' :: rest =>
    let digits := rest.takeWhile Char.isDigit
    if digits.isEmpty then none
    else
      match rest.drop digits.length with
      | '.' :: ' ' :: rest2 =>
        match titleSplit rest2 with
        | some (title, rest3) =>
          let p := contentSplit rest3
          some (digits, title, p.1, p.2)
        | none => none
      | _ => none
  | _ => none

/-- `re.finditer` for the section pattern, fuelled by the input length
(every match consumes at least one character). -/
def findSectionsGo : Nat → List Char → List (List Char × List Char × List Char)
  | 0, _ => []
  | fuel + 1, s =>
    match s with
    | [] => []
    | c :: rest =>
      match matchSectionAt (c :: rest) with
      | some (num, title, content, r) =>
        (num, title, content) :: findSectionsGo fuel r
      | none => findSectionsGo fuel rest

/-- All section matches of the document, in scan order. -/
def findSections (s : List Char) : List (List Char × List Char × List Char) :=
  findSectionsGo s.length s

/-- `PowerPointAgent.parse_thesis`: defaults for the three metadata
fields, stripped groups, and the numbered sections in match order with
stripped titles and contents (the numbers are kept as matched). -/
def parse_thesis (md : List Char) : ThesisData :=
  { sector :=
      match sectorSearch md with
      | some g => pyStrip g
      | none => []
    region :=
      match regionSearch md with
      | some g => pyStrip g
      | none => "US".toList
    executive_summary :=
      match execSearch md with
      | some g => pyStrip g
      | none => []
    sections :=
      (findSections md).map fun sec => ⟨sec.1, pyStrip sec.2.1, pyStrip sec.2.2⟩ }

end PowerPointAgent

/-- C6: the thesis parser never fails.  When the region pattern is absent
the region field is the hardcoded default US; an absent sector or
executive-summary pattern leaves the corresponding field empty; zero
section matches yield an empty section list (and in general the parser
returns one record per section match). -/
theorem c6_parse_thesis_defaults (md : List Char) :
    (PowerPointAgent.regionSearch md = none →
      (PowerPointAgent.parse_thesis md).region = "US".toList) ∧
    (PowerPointAgent.sectorSearch md = none →
      (PowerPointAgent.parse_thesis md).sector = []) ∧
    (PowerPointAgent.execSearch md = none →
      (PowerPointAgent.parse_thesis md).executive_summary = []) ∧
    (PowerPointAgent.findSections md = [] →
      (PowerPointAgent.parse_thesis md).sections = []) ∧
    (PowerPointAgent.parse_thesis md).sections.length =
      (PowerPointAgent.findSections md).length := by
  refine ⟨?_, ?_, ?_, ?_, ?_⟩
  · intro h
    rw [PowerPointAgent.parse_thesis]
    simp [h]
  · intro h
    rw [PowerPointAgent.parse_thesis]
    simp [h]
  · intro h
    rw [PowerPointAgent.parse_thesis]
    simp [h]
  · intro h
    rw [PowerPointAgent.parse_thesis]
    simp [h]
  · rw [PowerPointAgent.parse_thesis]
    simp

/-- Witness for C6: a document with none of the patterns parses to the
all-default record. -/
theorem c6_parse_thesis_defaults_witness :
    PowerPointAgent.regionSearch "just text, no patterns".toList = none ∧
    PowerPointAgent.parse_thesis "just text, no patterns".toList =
      ⟨[], "US".toList, [], []⟩ := by
  have h := c6_parse_thesis_defaults "just text, no patterns".toList
  refine ⟨by decide, ?_⟩
  have h1 := h.1 (by decide)
  have h2 := h.2.1 (by decide)
  have h3 := h.2.2.1 (by decide)
  have h4 := h.2.2.2.1 (by decide)
  cases hp : PowerPointAgent.parse_thesis "just text, no patterns".toList
  rw [hp] at h1 h2 h3 h4
  simp at h1 h2 h3 h4
  rw [h1, h2, h3, h4]
  rfl

namespace PowerPointAgent

/-!
## Round-trip properties of the section scanner (C5)

A document following the compiler output convention is a preamble
followed by rendered sections `## <number>. <title>\n<content>\n`.  The
well-formedness conditions below say that a section really looks like
one section (digit number, one-line title, no section boundary hidden in
the content) and that the preamble contains no position where the
section pattern matches.
-/

/-- Render one section the way the outline compiler writes it. -/
def renderSection (sec : ThesisSection) : List Char :=
  "## ".toList ++ sec.number ++ ". ".toList ++ sec.title ++ ['\n'] ++
    sec.content ++ ['\n']

/-- A compiled document: preamble, then the rendered sections. -/
def renderThesisDoc (pre : List Char) (secs : List ThesisSection) : List Char :=
  pre ++ (secs.map renderSection).flatten

/-- Does the text contain a newline followed by a numbered section
header? -/
def hasNlHeader : List Char → Bool
  | [] => false
  | c :: rest => (c == '\n' && startsSectionHeader rest) || hasNlHeader rest

/-- Does the text contain a newline followed by three dashes? -/
def hasNlDashes : List Char → Bool
  | [] => false
  | c :: rest => "\n---".toList.isPrefixOf (c :: rest) || hasNlDashes rest

/-- Well-formedness of one section record for rendering. -/
def goodSection (sec : ThesisSection) : Prop :=
  sec.number ≠ [] ∧ sec.number.all Char.isDigit = true ∧
    sec.title ≠ [] ∧ '\n' ∉ sec.title ∧
    hasNlHeader sec.content = false ∧ hasNlDashes sec.content = false

instance goodSection.instDecidable (sec : ThesisSection) :
    Decidable (goodSection sec) := by
  unfold goodSection
  infer_instance

/-- No section match starts inside the first argument (with the second
appended after it). -/
def noMatchIn : List Char → List Char → Bool
  | [], _ => true
  | c :: p, rest => (matchSectionAt (c :: (p ++ rest))).isNone && noMatchIn p rest

/-- `takeWhile`/`dropWhile` on an append whose left part satisfies the
predicate and whose boundary element does not. -/
theorem takeWhile_dropWhile_append {α : Type} (p : α → Bool) :
    ∀ (l : List α) (c : α) (r : List α), (∀ x ∈ l, p x = true) →
      p c = false →
      (l ++ c :: r).takeWhile p = l ∧ (l ++ c :: r).dropWhile p = c :: r := by
  intro l
  induction l with
  | nil =>
    intro c r _ hc
    simp [List.takeWhile_cons, List.dropWhile_cons, hc]
  | cons a l ih =>
    intro c r hl hc
    have ha : p a = true := hl a (List.mem_cons_self a l)
    have hrest := ih c r (fun x hx => hl x (List.mem_cons_of_mem a hx)) hc
    simp [List.takeWhile_cons, List.dropWhile_cons, ha, hrest.1, hrest.2]

theorem contentSplit_snd_length : ∀ (s : List Char),
    (contentSplit s).2.length ≤ s.length := by
  intro s
  induction s with
  | nil => simp [contentSplit]
  | cons c rest ih =>
    rw [contentSplit]
    split
    · simp
    · simpa using Nat.le_succ_of_le ih

theorem dropWhile_length_le {α : Type} (p : α → Bool) :
    ∀ (l : List α), (l.dropWhile p).length ≤ l.length := by
  intro l
  induction l with
  | nil => simp
  | cons a l ih =>
    rw [List.dropWhile_cons]
    split
    · exact Nat.le_succ_of_le ih
    · simp

theorem titleSplit_some_length {s t r : List Char}
    (h : titleSplit s = some (t, r)) : r.length < s.length := by
  match s with
  | [] => cases h
  | c :: rest =>
    rw [titleSplit] at h
    split at h
    · rename_i x r2 heq
      cases h
      have hlen : (rest.dropWhile fun x => !(x == '\n')).length ≤ rest.length :=
        dropWhile_length_le _ rest
      rw [heq] at hlen
      simp at hlen
      simp
      omega
    · cases h

theorem matchSectionAt_some_length {s : List Char}
    {num title content r : List Char}
    (h : matchSectionAt s = some (num, title, content, r)) :
    r.length < s.length := by
  unfold matchSectionAt at h
  split at h
  · rename_i rest
    dsimp only at h
    split at h
    · cases h
    · split at h
      · rename_i rest2 heq
        split at h
        · rename_i title2 rest3 heq2
          cases h
          have h1 : rest3.length < rest2.length := titleSplit_some_length heq2
          have h2 : (contentSplit rest3).2.length ≤ rest3.length :=
            contentSplit_snd_length rest3
          have h3 : (rest.drop (rest.takeWhile Char.isDigit).length).length =
              rest2.length + 2 := by rw [heq]; rfl
          rw [List.length_drop] at h3
          simp
          omega
        · cases h
      · cases h
  · cases h

/-- Any fuel of at least the input length gives the same scan. -/
theorem findSectionsGo_canonical : ∀ (fuel : Nat) (s : List Char),
    s.length ≤ fuel → findSectionsGo fuel s = findSectionsGo s.length s := by
  intro fuel
  induction fuel using Nat.strong_induction_on with
  | _ fuel ih =>
    intro s hs
    rcases s with _ | ⟨c, rest⟩
    · cases fuel <;> rfl
    · rcases fuel with _ | fuel
      · simp at hs
      · simp only [List.length_cons] at hs ⊢
        cases hm : matchSectionAt (c :: rest) with
        | none =>
          simp only [findSectionsGo, hm]
          rw [ih fuel (Nat.lt_succ_self fuel) rest (by omega)]
        | some x =>
          obtain ⟨num, title, content, r⟩ := x
          have hr := matchSectionAt_some_length hm
          simp only [List.length_cons] at hr
          simp only [findSectionsGo, hm]
          congr 1
          rw [ih fuel (Nat.lt_succ_self fuel) r (by omega)]
          rw [ih rest.length (by omega) r (by omega)]

theorem findSections_skip {c : Char} {rest : List Char}
    (h : matchSectionAt (c :: rest) = none) :
    findSections (c :: rest) = findSections rest := by
  rw [findSections, findSections, List.length_cons]
  simp only [findSectionsGo, h]

theorem findSections_match {s : List Char} {num title content r : List Char}
    (h : matchSectionAt s = some (num, title, content, r)) :
    findSections s = (num, title, content) :: findSections r := by
  rcases s with _ | ⟨c, rest⟩
  · cases h
  · have hr := matchSectionAt_some_length h
    simp only [List.length_cons] at hr
    rw [findSections, findSections, List.length_cons]
    simp only [findSectionsGo, h]
    congr 1
    exact findSectionsGo_canonical rest.length r (by omega)

/-- Scanning skips a preamble containing no section match. -/
theorem findSections_append_pre : ∀ (pre rest : List Char),
    noMatchIn pre rest = true → findSections (pre ++ rest) = findSections rest := by
  intro pre
  induction pre with
  | nil => intro rest _; rfl
  | cons c p ih =>
    intro rest h
    rw [noMatchIn, Bool.and_eq_true] at h
    have hnone : matchSectionAt (c :: (p ++ rest)) = none :=
      Option.isNone_iff_eq_none.mp h.1
    rw [List.cons_append, findSections_skip hnone]
    exact ih rest h.2

/-- A numbered-header pattern cannot straddle the newline appended after
a section content: it either lies inside the left part or fails. -/
theorem startsSectionHeader_append_true : ∀ {rest tail : List Char},
    startsSectionHeader (rest ++ '\n' :: tail) = true →
    startsSectionHeader rest = true := by
  intro rest tail h
  rcases rest with _ | ⟨a, _ | ⟨b, _ | ⟨d, _ | ⟨e, r⟩⟩⟩⟩
  · rcases tail with _ | ⟨t1, _ | ⟨t2, _ | ⟨t3, ts⟩⟩⟩ <;>
      simp [startsSectionHeader] at h
  · rcases tail with _ | ⟨t1, _ | ⟨t2, ts⟩⟩ <;>
      simp [startsSectionHeader] at h
  · rcases tail with _ | ⟨t1, ts⟩ <;> simp [startsSectionHeader] at h
  · simp [startsSectionHeader] at h
  · simpa [startsSectionHeader] using h

/-- The horizontal-rule pattern cannot straddle the appended newline
either. -/
theorem hrStart_append_true : ∀ (c : Char) (cs tail : List Char),
    hrStart ((c :: cs) ++ '\n' :: tail) = true → hrStart (c :: cs) = true := by
  intro c cs tail h
  rcases cs with _ | ⟨a, _ | ⟨b, _ | ⟨d, r⟩⟩⟩
  · rcases tail with _ | ⟨t1, _ | ⟨t2, ts⟩⟩ <;> simp [hrStart] at h
  · rcases tail with _ | ⟨t1, ts⟩ <;> simp [hrStart] at h
  · simp [hrStart] at h
  · simpa [hrStart] using h

/-- A position where `hrStart` holds carries the newline-dashes prefix. -/
theorem hrStart_prefix {s : List Char} (h : hrStart s = true) :
    "\n---".toList.isPrefixOf s = true := by
  rcases s with _ | ⟨a, _ | ⟨b, _ | ⟨d, _ | ⟨e, r⟩⟩⟩⟩ <;>
    simp only [hrStart, Bool.and_eq_true, beq_iff_eq] at h
  · cases h
  · cases h
  · cases h
  · cases h
  · obtain ⟨⟨⟨rfl, rfl⟩, rfl⟩, rfl⟩ := h
    simp [List.isPrefixOf]

/-- No section boundary fires strictly inside a well-formed content. -/
theorem sectionBoundary_inside {c : Char} {rest tail : List Char}
    (hhead : hasNlHeader (c :: rest) = false)
    (hdash : hasNlDashes (c :: rest) = false) :
    sectionBoundary (c :: (rest ++ '\n' :: tail)) = false := by
  rw [hasNlHeader, Bool.or_eq_false_iff, Bool.and_eq_false_iff] at hhead
  rw [hasNlDashes, Bool.or_eq_false_iff] at hdash
  rw [sectionBoundary]
  simp only [Bool.or_eq_false_iff]
  refine ⟨⟨⟨?_, ?_⟩, ?_⟩, ?_⟩
  · rw [Bool.and_eq_false_iff]
    rcases hhead.1 with hc | hstart
    · exact Or.inl hc
    · right
      cases hs : startsSectionHeader (rest ++ '\n' :: tail)
      · rfl
      · exact absurd (startsSectionHeader_append_true hs) (by simp [hstart])
  · rw [Bool.and_eq_false_iff]
    left
    cases hr : hrStart (c :: (rest ++ '\n' :: tail))
    · rfl
    · exfalso
      have h2 := hrStart_prefix (hrStart_append_true c rest tail
        (by simpa [List.cons_append] using hr))
      rw [hdash.1] at h2
      cases h2
  · rfl
  · simp

/-- The boundary fires exactly at the newline closing a section. -/
theorem sectionBoundary_at_end {tail : List Char}
    (htail : tail = [] ∨ startsSectionHeader tail = true) :
    sectionBoundary ('\n' :: tail) = true := by
  rw [sectionBoundary]
  rcases htail with rfl | h
  · simp
  · simp [h]

/-- The lazy content group stops exactly at the closing newline of a
well-formed section. -/
theorem contentSplit_exact : ∀ (content tail : List Char),
    hasNlHeader content = false → hasNlDashes content = false →
    (tail = [] ∨ startsSectionHeader tail = true) →
    contentSplit (content ++ '\n' :: tail) = (content, '\n' :: tail) := by
  intro content
  induction content with
  | nil =>
    intro tail _ _ htail
    rw [List.nil_append, contentSplit, if_pos (sectionBoundary_at_end htail)]
  | cons c rest ih =>
    intro tail hhead hdash htail
    rw [List.cons_append, contentSplit,
      if_neg (by rw [sectionBoundary_inside hhead hdash]; simp)]
    have hh2 : hasNlHeader rest = false := by
      rw [hasNlHeader, Bool.or_eq_false_iff] at hhead
      exact hhead.2
    have hd2 : hasNlDashes rest = false := by
      rw [hasNlDashes, Bool.or_eq_false_iff] at hdash
      exact hdash.2
    have hrest := ih tail hh2 hd2 htail
    dsimp only
    rw [hrest]

/-- The lazy title group takes exactly a newline-free non-empty title. -/
theorem titleSplit_exact {title rest : List Char} (h1 : title ≠ [])
    (h2 : '\n' ∉ title) :
    titleSplit (title ++ '\n' :: rest) = some (title, rest) := by
  rcases title with _ | ⟨c, t⟩
  · exact absurd rfl h1
  · rw [List.cons_append, titleSplit]
    have hall : ∀ x ∈ t, (!(x == '\n')) = true := by
      intro x hx
      simp
      intro hcon
      exact h2 (by rw [hcon] at hx; exact List.mem_cons_of_mem c hx)
    have hsplit := takeWhile_dropWhile_append (fun x => !(x == '\n')) t '\n'
      rest hall (by simp)
    rw [hsplit.2, hsplit.1]

/-- The section pattern matches a well-formed rendered section exactly,
consuming everything except the closing newline. -/
theorem matchSectionAt_render {sec : ThesisSection} {tail : List Char}
    (hg : goodSection sec)
    (htail : tail = [] ∨ startsSectionHeader tail = true) :
    matchSectionAt (renderSection sec ++ tail) =
      some (sec.number, sec.title, sec.content, '\n' :: tail) := by
  obtain ⟨hn1, hn2, ht1, ht2, hc1, hc2⟩ := hg
  have hre : renderSection sec ++ tail =
      '#' :: '#' :: ' ' :: (sec.number ++ ('.' :: ' ' ::
        (sec.title ++ '\n' :: (sec.content ++ '\n' :: tail)))) := by
    simp only [renderSection, List.append_assoc]
    rfl
  rw [hre, matchSectionAt]
  dsimp only
  have hdigits := takeWhile_dropWhile_append Char.isDigit sec.number '.'
    (' ' :: (sec.title ++ '\n' :: (sec.content ++ '\n' :: tail)))
    (fun x hx => List.all_eq_true.mp hn2 x hx) (by decide)
  have hd1 : (sec.number ++ '.' :: ' ' ::
      (sec.title ++ '\n' :: (sec.content ++ '\n' :: tail))).takeWhile
        Char.isDigit = sec.number := hdigits.1
  rw [hd1]
  rw [if_neg (by simp [hn1])]
  rw [List.drop_left]
  simp [titleSplit_exact ht1 ht2,
    contentSplit_exact sec.content tail hc1 hc2 htail]

/-- A rendered well-formed section starts with a numbered header. -/
theorem startsSectionHeader_render {sec : ThesisSection}
    (hg : goodSection sec) (z : List Char) :
    startsSectionHeader (renderSection sec ++ z) = true := by
  obtain ⟨hn1, hn2, _, _, _, _⟩ := hg
  have hre : renderSection sec ++ z =
      '#' :: '#' :: ' ' :: (sec.number ++ ('.' :: ' ' ::
        (sec.title ++ '\n' :: (sec.content ++ '\n' :: z)))) := by
    simp only [renderSection, List.append_assoc]
    rfl
  rw [hre]
  rcases hnum : sec.number with _ | ⟨d, ds⟩
  · exact absurd hnum hn1
  · rw [hnum] at hn2
    simp only [List.all_cons, Bool.and_eq_true] at hn2
    simp [startsSectionHeader, hn2.1]

/-- The scanner recovers exactly the rendered sections, in order. -/
theorem findSections_render : ∀ (secs : List ThesisSection),
    (∀ s ∈ secs, goodSection s) →
    findSections ((secs.map renderSection).flatten) =
      secs.map (fun s => (s.number, s.title, s.content)) := by
  intro secs
  induction secs with
  | nil => intro _; rfl
  | cons sec secs ih =>
    intro hg
    rw [List.map_cons, List.flatten_cons]
    have hgs := hg sec (List.mem_cons_self sec secs)
    have htail : (secs.map renderSection).flatten = [] ∨
        startsSectionHeader ((secs.map renderSection).flatten) = true := by
      rcases secs with _ | ⟨s2, rest2⟩
      · left; rfl
      · right
        rw [List.map_cons, List.flatten_cons]
        exact startsSectionHeader_render (hg s2 (by simp)) _
    rw [findSections_match (matchSectionAt_render hgs htail)]
    have hskip : matchSectionAt ('\n' :: (secs.map renderSection).flatten) =
        none := rfl
    rw [findSections_skip hskip]
    rw [ih (fun s hs => hg s (List.mem_cons_of_mem sec hs))]
    rfl

end PowerPointAgent

/-- C5: on any document following the compiler output convention (a
preamble holding no section-pattern match, then rendered numbered
sections), the parser returns exactly those sections in source order,
with the source number strings preserved even when non-contiguous; the
order and count of the result are those of the source text. -/
theorem c5_sections_order_preserved (pre : List Char)
    (secs : List PowerPointAgent.ThesisSection)
    (hpre : PowerPointAgent.noMatchIn pre
      ((secs.map PowerPointAgent.renderSection).flatten) = true)
    (hsecs : ∀ s ∈ secs, PowerPointAgent.goodSection s) :
    (PowerPointAgent.parse_thesis
        (PowerPointAgent.renderThesisDoc pre secs)).sections =
      secs.map (fun s => ⟨s.number, pyStrip s.title, pyStrip s.content⟩) ∧
    (PowerPointAgent.parse_thesis
        (PowerPointAgent.renderThesisDoc pre secs)).sections.map
        PowerPointAgent.ThesisSection.number =
      secs.map PowerPointAgent.ThesisSection.number ∧
    (PowerPointAgent.parse_thesis
        (PowerPointAgent.renderThesisDoc pre secs)).sections.length =
      secs.length := by
  have hmain : (PowerPointAgent.parse_thesis
      (PowerPointAgent.renderThesisDoc pre secs)).sections =
      secs.map (fun s => ⟨s.number, pyStrip s.title, pyStrip s.content⟩) := by
    rw [PowerPointAgent.parse_thesis]
    dsimp only
    rw [PowerPointAgent.renderThesisDoc,
      PowerPointAgent.findSections_append_pre _ _ hpre,
      PowerPointAgent.findSections_render secs hsecs, List.map_map]
    rfl
  refine ⟨hmain, ?_, ?_⟩
  · rw [hmain, List.map_map]
    rfl
  · rw [hmain, List.length_map]

/-- Witness for C5: a realistic document with sections numbered 1, 2, 5
parses to exactly those numbers in that order. -/
theorem c5_sections_order_preserved_witness :
    (PowerPointAgent.parse_thesis
        (PowerPointAgent.renderThesisDoc
          "# VC Thesis\n**Region**: US\n\n## Fintech\n\n".toList
          [⟨"1".toList, "Trends".toList, "Growing fast.".toList⟩,
            ⟨"2".toList, "Market".toList, "Large TAM.".toList⟩,
            ⟨"5".toList, "Companies".toList, "- A\n- B".toList⟩])).sections.map
        PowerPointAgent.ThesisSection.number =
      ["1".toList, "2".toList, "5".toList] := by
  have h := c5_sections_order_preserved
    "# VC Thesis\n**Region**: US\n\n## Fintech\n\n".toList
    [⟨"1".toList, "Trends".toList, "Growing fast.".toList⟩,
      ⟨"2".toList, "Market".toList, "Large TAM.".toList⟩,
      ⟨"5".toList, "Companies".toList, "- A\n- B".toList⟩]
    (by decide) (by decide)
  rw [h.2.1]
  decide
